import Mathlib

/-!
Shallow embedding of the QM9 data pipeline in `src/datasets/qm9.py`
(ponita-jax).  Numeric array entries are modelled as exact rationals
(the source uses float32 arrays; every claim below is about the
structure of the computation, not about rounding), numpy/jax arrays as
Lean lists, and a 2 x E integer edge-index array as a list of E
(source, destination) column pairs.
-/

namespace QM9

/-! ## Target table normalisation (`QM9Dataset.process`, lines 124-135) -/

/-- `HAR2EV` conversion constant (line 19). -/
def HAR2EV : ℚ := 27.211386246

/-- `KCALMOL2EV` conversion constant (line 20). -/
def KCALMOL2EV : ℚ := 0.04336414

/-- The per-column `conversion_factors` vector (lines 129-133). -/
def conversionFactors : List ℚ :=
  [1, 1, HAR2EV, HAR2EV, HAR2EV, 1, HAR2EV, HAR2EV, HAR2EV,
   HAR2EV, HAR2EV, 1, KCALMOL2EV, KCALMOL2EV, KCALMOL2EV,
   KCALMOL2EV, 1, 1, 1]

/-- Per-row form of `rearranged_targets = concatenate([raw[:, 3:], raw[:, :3]], axis=1)`
(line 128). -/
def rearrangeRow (row : List ℚ) : List ℚ := row.drop 3 ++ row.take 3

/-- Per-row form of `targets = rearranged_targets * conversion_factors` (line 135):
element-wise product with the factor vector. -/
def normalizeTargetsRow (row : List ℚ) : List ℚ :=
  List.zipWith (· * ·) (rearrangeRow row) conversionFactors

/-! ## Raw molecule records and the per-molecule parser
(`QM9Dataset.process`, lines 137-200).

A raw RDKit molecule is modelled by its atom list (atomic number and
3-D position) and bond list (begin/end atom index and RDKit bond type).
An unparsable record (`mol is None`) is modelled as `none`. -/

structure RawAtom where
  atomicNum : Nat
  pos : ℚ × ℚ × ℚ
  deriving DecidableEq, Repr

inductive RawBondType where
  | single
  | double
  | triple
  | aromatic
  | other
  deriving DecidableEq, Repr

structure RawBond where
  beginIdx : Nat
  endIdx : Nat
  btype : RawBondType
  deriving DecidableEq, Repr

structure RawMol where
  atoms : List RawAtom
  bonds : List RawBond
  name : String
  smiles : String
  deriving DecidableEq, Repr

/-- `atom_types = {1: 0, 6: 1, 7: 2, 8: 3, 9: 4}` (line 137), as a partial map:
`none` models a Python `KeyError` on lookup. -/
def atomTypes (z : Nat) : Option Nat :=
  if z = 1 then some 0
  else if z = 6 then some 1
  else if z = 7 then some 2
  else if z = 8 then some 3
  else if z = 9 then some 4
  else none

/-- One-hot row `x[j]` over the 5 atom types (lines 149-153): all-false row of
width 5 with the looked-up column set.  Fails (KeyError) outside the vocabulary. -/
def atomOneHot (z : Nat) : Option (List Bool) :=
  (atomTypes z).map fun t => (List.range 5).map fun k => decide (k = t)

/-- The feature loop at lines 151-153: one one-hot row per atom, stopping with
a `KeyError` (`none`) at the first atom whose atomic number is missing from
`atom_types`. -/
def buildX : List RawAtom → Option (List (List Bool))
  | [] => some []
  | a :: as =>
      match atomOneHot a.atomicNum with
      | none => none
      | some r => (buildX as).map (r :: ·)

/-- Bond-type one-hot `[single, double, triple, aromatic]` (lines 167-175).
A bond type outside the four cases leaves the row all-false, as in the source. -/
def bondTypeOneHot (t : RawBondType) : List Bool :=
  match t with
  | .single => [true, false, false, false]
  | .double => [false, true, false, false]
  | .triple => [false, false, true, false]
  | .aromatic => [false, false, false, true]
  | .other => [false, false, false, false]

/-- The edge list built by the bond loop (lines 163-180), kept zipped with its
feature rows (the source keeps two parallel lists `edge_indices` / `edge_attrs`
appended in lockstep, which is the same data).  Each bond contributes the pair
`(start, end)` and the reverse `(end, start)`, both with the same feature row. -/
def buildEdges : List RawBond → List ((Nat × Nat) × List Bool)
  | [] => []
  | b :: bs =>
      ((b.beginIdx, b.endIdx), bondTypeOneHot b.btype) ::
      ((b.endIdx, b.beginIdx), bondTypeOneHot b.btype) :: buildEdges bs

/-- The comparison used by `np.lexsort((edge_index[0, :], edge_index[1, :]))`
(line 187): lexicographic on (destination, source); the edge is stored as a
(source, destination) pair. -/
def edgeLe (p q : (Nat × Nat) × List Bool) : Prop :=
  p.1.2 < q.1.2 ∨ (p.1.2 = q.1.2 ∧ p.1.1 ≤ q.1.1)

instance : DecidableRel edgeLe := fun p q => by
  unfold edgeLe; infer_instance

instance : IsTotal ((Nat × Nat) × List Bool) edgeLe where
  total p q := by
    rcases Nat.lt_trichotomy p.1.2 q.1.2 with h | h | h
    · exact Or.inl (Or.inl h)
    · rcases Nat.le_total p.1.1 q.1.1 with h1 | h1
      · exact Or.inl (Or.inr ⟨h, h1⟩)
      · exact Or.inr (Or.inr ⟨h.symm, h1⟩)
    · exact Or.inr (Or.inl h)

instance : IsTrans ((Nat × Nat) × List Bool) edgeLe where
  trans p q r h1 h2 := by
    rcases h1 with h1 | ⟨h1, h1s⟩ <;> rcases h2 with h2 | ⟨h2, h2s⟩
    · exact Or.inl (h1.trans h2)
    · exact Or.inl (h2 ▸ h1)
    · exact Or.inl (h1 ▸ h2)
    · exact Or.inr ⟨h1.trans h2, h1s.trans h2s⟩

/-- Joint stable sort of the edge list and its feature rows: the source computes
`sort_indices = np.lexsort((edge_index[0], edge_index[1]))` and applies the same
permutation to `edge_index` (columns) and `edge_attr` (rows) (lines 187-189);
a stable sort of the zipped list by the lexsort key is that exact result. -/
def sortEdges (l : List ((Nat × Nat) × List Bool)) : List ((Nat × Nat) × List Bool) :=
  List.insertionSort edgeLe l

/-- One processed molecule (`data_list` entry, lines 191-200). -/
structure MoleculeGraph where
  pos : List (ℚ × ℚ × ℚ)
  x : List (List Bool)
  y : List ℚ
  edge_index : List (Nat × Nat)
  edge_attr : List (List Bool)
  name : String
  smiles : String
  idx : Nat
  deriving DecidableEq, Repr

/-- Error raised while parsing one record.  `keyError z` models the Python
`KeyError` raised by `atom_types[atom.GetAtomicNum()]` (line 153) when the
atomic number `z` is outside the vocabulary. -/
inductive ParseError where
  | keyError (z : Nat)
  deriving DecidableEq, Repr

/-- One iteration of the molecule loop (lines 143-200): `mol` is the supplier
entry at stream position `i`, `targetsRow` is `targets[i]`, `skip` the
uncharacterized index set.  Returns `.ok none` for a skipped record,
`.ok (some g)` for an accepted graph, `.error` for a fatal lookup failure. -/
def processMol (targetsRow : List ℚ) (i : Nat) (skip : List Nat)
    (mol : Option RawMol) : Except ParseError (Option MoleculeGraph) :=
  match mol with
  | none => .ok none
  | some m =>
      if i ∈ skip then .ok none
      else
        match buildX m.atoms with
        | none =>
            -- the loop at lines 151-153 raises KeyError at the first atom
            -- whose atomic number is missing from `atom_types`
            match (m.atoms.find? fun a => (atomTypes a.atomicNum).isNone) with
            | some a => .error (.keyError a.atomicNum)
            | none => .error (.keyError 0)
        | some x =>
            let sorted := sortEdges (buildEdges m.bonds)
            .ok (some
              { pos := m.atoms.map RawAtom.pos
                x := x
                y := targetsRow
                edge_index := sorted.map Prod.fst
                edge_attr := sorted.map Prod.snd
                name := m.name
                smiles := m.smiles
                idx := i })

/-! ## Deterministic split (`QM9Dataset.apply_split`, lines 58-69).

The source calls `np.random.RandomState(seed=42).permutation(arange(TOTAL_SIZE))`:
a seeded Mersenne-Twister stream driving a Fisher-Yates shuffle (swap `a[i]`
with `a[j]`, `j` uniform in `[0, i]`, for `i = n-1 .. 1`).  The bit-exact
MT19937 stream lives in the external numpy library; it is modelled here by a
concrete deterministic word stream `seededRand` (a linear-congruential mix of
seed and step), and the shuffle itself is embedded exactly.  Every property
proved below holds for every choice of word stream, so nothing depends on the
modelled stream's particular values. -/

/-- Models the seeded pseudo-random word stream of `np.random.RandomState(seed)`:
a deterministic function of the seed and the draw ordinal (the true MT19937
stream is external library code; only determinism matters for the claims). -/
def seededRand (seed : Nat) (step : Nat) : Nat :=
  (1664525 * (seed + 1013904223 * step) + 1013904223) % 2 ^ 32

/-- Swap entries `i` and `j` of a list (numpy's in-place `a[i], a[j] = a[j], a[i]`). -/
def listSwap (l : List Nat) (i j : Nat) : List Nat :=
  (l.set i (l.getD j 0)).set j (l.getD i 0)

/-- Fisher-Yates descent of numpy's `shuffle`: for `i = n-1` down to `1`,
swap position `i` with position `rand ⟨draw⟩ % (i+1)`.  `i` is the current
high index (the first call gets `i = l.length - 1`). -/
def fisherYates (rand : Nat → Nat) : Nat → List Nat → List Nat
  | 0, l => l
  | i + 1, l => fisherYates rand i (listSwap l (i + 1) (rand (i + 1) % (i + 2)))

/-- `perm = random_state.permutation(np.arange(total))` (line 61), modelled as a
Fisher-Yates shuffle of `range total` driven by the seeded word stream. -/
def npPermutation (rand : Nat → Nat) (total : Nat) : List Nat :=
  fisherYates rand (total - 1) (List.range total)

/-- The three index blocks of `apply_split` (line 62):
`perm[:TRAIN]`, `perm[TRAIN:TRAIN+VAL]`, `perm[TRAIN+VAL:]`. -/
def applySplitIdx (rand : Nat → Nat) (total trainSize valSize : Nat) :
    List Nat × List Nat × List Nat :=
  let perm := npPermutation rand total
  (perm.take trainSize, (perm.drop trainSize).take valSize, perm.drop (trainSize + valSize))

/-- The dataset split sizes (lines 21-24). -/
def TOTAL_SIZE : Nat := 130831
def TRAIN_SIZE : Nat := 110000
def VAL_SIZE : Nat := 10000
def TEST_SIZE : Nat := 10831

/-! ## Batch collation (`collate_fn`, lines 232-254). -/

/-- The collated batch dictionary (line 254).  `y` keeps one row per molecule
(`np.stack`), all other arrays are row/column concatenations. -/
structure BatchedGraph where
  pos : List (ℚ × ℚ × ℚ)
  x : List (List Bool)
  y : List (List ℚ)
  batch : List Nat
  ptr : List Nat
  edge_index : List (Nat × Nat)
  edge_attr : List (List Bool)
  deriving DecidableEq, Repr

/-- The body of the `collate_fn` loop (lines 236-246) from item `i` on, with
`cum` the running `cum_nodes`: appends each item's rows, its edge columns
offset by `cum`, `i` once per atom row, and the post-item cumulative count to
`ptr`. -/
def collateGo : List MoleculeGraph → Nat → Nat → BatchedGraph
  | [], _, _ =>
      { pos := [], x := [], y := [], batch := [], ptr := [],
        edge_index := [], edge_attr := [] }
  | item :: rest, i, cum =>
      let numNodes := item.x.length
      let r := collateGo rest (i + 1) (cum + numNodes)
      { pos := item.pos ++ r.pos
        x := item.x ++ r.x
        y := item.y :: r.y
        batch := List.replicate numNodes i ++ r.batch
        ptr := (cum + numNodes) :: r.ptr
        edge_index := item.edge_index.map (fun p => (p.1 + cum, p.2 + cum)) ++ r.edge_index
        edge_attr := item.edge_attr ++ r.edge_attr }

/-- `collate_fn(batch)` (lines 232-254): the loop starting from `cum_nodes = 0`
with `ptr` seeded with the initial `0` (line 235). -/
def collateFn (batch : List MoleculeGraph) : BatchedGraph :=
  let r := collateGo batch 0 0
  { r with ptr := 0 :: r.ptr }

/-! ## Static-shape padding (`QM9GraphTransform` / `_qm9_transform`, lines 257-301). -/

/-- Python `int(q)`: truncation toward zero (`Int.tdiv`).  The float expression
`0.8 * max_batch_nodes` is modelled as the exact rational `4 * max / 5`
(exact agreement with float64 at the capacities used below). -/
def pyInt (q : ℚ) : Int := Int.tdiv q.num q.den

/-- `jnp.pad(a, ((0, p), ...))` along the leading axis with constant `c`:
for `p ≥ 0` appends `p` copies of `c`; for `p < 0` jax lowers constant-mode
padding to `lax.pad`, whose negative edge padding crops `|p|` trailing
entries — no error is raised. -/
def padHigh {α : Type} (l : List α) (p : Int) (c : α) : List α :=
  if 0 ≤ p then l ++ List.replicate p.toNat c
  else l.take (l.length - (-p).toNat)

/-- Python `n * [v]` for an `int` `n`: empty when `n ≤ 0`. -/
def pyRepl {α : Type} (n : Int) (v : α) : List α := List.replicate n.toNat v

/-- `edge_index.max()` (line 281): the largest entry of the 2 x E index array
(the source raises on an empty array; the model returns 0 there, and every
claim below supplies a non-empty batch). -/
def maxEdgeEntry (l : List (Nat × Nat)) : Nat :=
  l.foldr (fun p m => max (max p.1 p.2) m) 0

/-- The padded graph dictionary (lines 290-298). -/
structure PaddedGraph where
  pos : List (ℚ × ℚ × ℚ)
  x : List (List Bool)
  edge_index : List (Nat × Nat)
  edge_attr : List (List Bool)
  graph_index : List Nat
  y : List ℚ
  padding_mask : List ℚ
  deriving DecidableEq, Repr

/-- `n_node_pad = int(0.8 * max_batch_nodes - n_nodes + 1)` (line 274). -/
def nNodePad (maxBatchNodes nNodes : Nat) : Int :=
  pyInt ((4 * maxBatchNodes : ℚ) / 5 - nNodes + 1)

/-- `n_edge_pad = int(0.8 * max_batch_edges - n_edges + 1)` (line 275). -/
def nEdgePad (maxBatchEdges nEdges : Nat) : Int :=
  pyInt ((4 * maxBatchEdges : ℚ) / 5 - nEdges + 1)

/-- `_qm9_transform(data)` (lines 261-299).  `jnp.append` flattens its 2-D
arguments row-major, so `jnp.append(y, 0)` and `jnp.append(ones_like(y), 0)`
act on the row-stacked target matrix joined into one flat vector.
`graph_index` is extended by `n_node_pad * [graph_index[-1] + 1]` (empty when
the pad count is negative). -/
def qm9Transform (maxBatchNodes maxBatchEdges : Nat) (data : BatchedGraph) : PaddedGraph :=
  let nNodes := data.x.length
  let nEdges := data.edge_index.length
  let nodePad := nNodePad maxBatchNodes nNodes
  let edgePad := nEdgePad maxBatchEdges nEdges
  let sentinel := maxEdgeEntry data.edge_index + 1
  { pos := padHigh data.pos nodePad (0, 0, 0)
    x := padHigh data.x nodePad (List.replicate (data.x.headD []).length false)
    edge_index := padHigh data.edge_index edgePad (sentinel, sentinel)
    edge_attr := padHigh data.edge_attr edgePad (List.replicate (data.edge_attr.headD []).length false)
    graph_index := data.batch ++ pyRepl nodePad (data.batch.getLastD 0 + 1)
    y := data.y.flatten ++ [0]
    padding_mask := data.y.flatten.map (fun _ => (1 : ℚ)) ++ [0] }

/-! ## Subset query (`QM9Dataset.__getitem__`, lines 207-215). -/

/-- The dataset state relevant to `__getitem__`: the stored record list and the
configured `target_index` (line 35). -/
structure DatasetState where
  data : List MoleculeGraph
  targetIndex : Option Nat
  deriving Repr

/-- `__getitem__(idx)` (lines 207-215): returns the record and the
post-call state.  When a target is selected and the stored target vector
still has more than one entry, the stored record's `y` is replaced in place
by the slice `y[ti:ti+1]`; otherwise the record is returned unchanged.
`none` models a Python `IndexError` on an out-of-range index. -/
def getItem (s : DatasetState) (idx : Nat) : Option (MoleculeGraph × DatasetState) :=
  match s.data[idx]? with
  | none => none
  | some item =>
      match s.targetIndex with
      | none => some (item, s)
      | some ti =>
          if 1 < item.y.length then
            let item2 := { item with y := (item.y.drop ti).take 1 }
            some (item2, { s with data := s.data.set idx item2 })
          else
            some (item, s)

/-! ## Concrete inputs used by the example parts, witnesses and
counterexamples below. -/

/-- A concrete 19-column raw label row. -/
def rowEx : List ℚ :=
  [5, 7, 11, 13, 17, 19, 23, 29, 31, 37, 41, 43, 47, 53, 59, 61, 67, 71, 73]

/-- The end-to-end example molecule of the spec: atoms (6, 6, 8), bonds
0-1 single and 1-2 double. -/
def molEx : RawMol :=
  { atoms := [⟨6, (0, 0, 0)⟩, ⟨6, (1, 0, 0)⟩, ⟨8, (2, 0, 0)⟩]
    bonds := [⟨0, 1, .single⟩, ⟨1, 2, .double⟩]
    name := "example"
    smiles := "C=CO" }

/-- The graph `processMol` produces for `molEx`. -/
def gEx : MoleculeGraph :=
  { pos := [(0, 0, 0), (1, 0, 0), (2, 0, 0)]
    x := [[false, true, false, false, false],
          [false, true, false, false, false],
          [false, false, false, true, false]]
    y := rowEx
    edge_index := [(1, 0), (0, 1), (2, 1), (1, 2)]
    edge_attr := [[true, false, false, false], [true, false, false, false],
                  [false, true, false, false], [false, true, false, false]]
    name := "example"
    smiles := "C=CO"
    idx := 0 }

/-- A record with an atom (lithium, atomic number 3) outside the vocabulary. -/
def molBad : RawMol :=
  { atoms := [⟨6, (0, 0, 0)⟩, ⟨3, (1, 0, 0)⟩]
    bonds := [⟨0, 1, .single⟩]
    name := "bad"
    smiles := "bad" }

/-- A two-atom molecule used in batch examples. -/
def gA : MoleculeGraph :=
  { pos := [(0, 0, 0), (1, 0, 0)]
    x := [[true, false, false, false, false], [true, false, false, false, false]]
    y := [1]
    edge_index := [(0, 1), (1, 0)]
    edge_attr := [[true, false, false, false], [true, false, false, false]]
    name := "a"
    smiles := "a"
    idx := 0 }

/-- A three-atom molecule used in batch examples. -/
def gB : MoleculeGraph :=
  { pos := [(0, 0, 0), (1, 0, 0), (2, 0, 0)]
    x := [[true, false, false, false, false], [true, false, false, false, false],
          [false, true, false, false, false]]
    y := [2]
    edge_index := [(1, 0), (0, 1), (2, 1), (1, 2)]
    edge_attr := [[true, false, false, false], [true, false, false, false],
                  [false, true, false, false], [false, true, false, false]]
    name := "b"
    smiles := "b"
    idx := 1 }

/-- A concrete collated batch (5 atoms, 6 edges). -/
def bgEx : BatchedGraph := collateFn [gA, gB]

/-- A batch with an isolated atom: 3 real atoms but edges only between atoms
0 and 1, so atom id 2 occurs in no edge.  Within capacity for
`max_batch_nodes = max_batch_edges = 10`. -/
def bgIso : BatchedGraph :=
  { pos := [(0, 0, 0), (1, 0, 0), (2, 0, 0)]
    x := [[true, false, false, false, false], [true, false, false, false, false],
          [false, true, false, false, false]]
    y := [[1]]
    batch := [0, 0, 0]
    ptr := [0, 3]
    edge_index := [(0, 1), (1, 0)]
    edge_attr := [[true, false, false, false], [true, false, false, false]] }

/-- A batch of 10 real atoms: over capacity for `max_batch_nodes = 10`, whose
80%-threshold is `int(0.8 * 10) + 1 = 9 < 10`. -/
def bgOver : BatchedGraph :=
  { pos := List.replicate 10 (0, 0, 0)
    x := List.replicate 10 [true, false, false, false, false]
    y := [[1]]
    batch := List.replicate 10 0
    ptr := [0, 10]
    edge_index := [(0, 1), (1, 0)]
    edge_attr := [[true, false, false, false], [true, false, false, false]] }

/-- A record with a 3-entry target vector, for the subset-query example. -/
def gC : MoleculeGraph :=
  { gA with y := [3, 4, 5] }

/-- A dataset state with one stored record and a selected target index. -/
def dsEx : DatasetState :=
  { data := [gC], targetIndex := some 1 }

/-- Cumulative sums `[c, c + n0, c + n0 + n1, ...]` starting at `c`: the
boundary vector the collator is claimed to produce. -/
def cumCounts : Nat → List Nat → List Nat
  | c, [] => [c]
  | c, n :: ns => c :: cumCounts (c + n) ns

/-! ## Helper lemmas -/

theorem atomOneHot_eq_none_iff (z : Nat) : atomOneHot z = none ↔ atomTypes z = none := by
  simp [atomOneHot]

theorem buildX_eq_none_iff (l : List RawAtom) :
    buildX l = none ↔ ∃ a ∈ l, atomTypes a.atomicNum = none := by
  induction l with
  | nil => simp [buildX]
  | cons a as ih =>
      cases h : atomOneHot a.atomicNum with
      | none =>
          simp only [buildX, h]
          exact iff_of_true trivial ⟨a, by simp, (atomOneHot_eq_none_iff _).1 h⟩
      | some r =>
          simp only [buildX, h, Option.map_eq_none', ih]
          constructor
          · rintro ⟨b, hb, hz⟩
            exact ⟨b, by simp [hb], hz⟩
          · rintro ⟨b, hb, hz⟩
            rcases List.mem_cons.1 hb with rfl | hb
            · exact absurd ((atomOneHot_eq_none_iff _).2 hz) (by simp [h])
            · exact ⟨b, hb, hz⟩

theorem zip_map_fst_snd {α β : Type} (l : List (α × β)) :
    (l.map Prod.fst).zip (l.map Prod.snd) = l := by
  rw [List.zip_map']
  simp

theorem sortEdges_perm (l : List ((Nat × Nat) × List Bool)) : (sortEdges l).Perm l :=
  List.perm_insertionSort _ _

theorem sortEdges_sorted (l : List ((Nat × Nat) × List Bool)) :
    List.Sorted edgeLe (sortEdges l) :=
  List.sorted_insertionSort _ _

/-- An accepted graph's edge and feature arrays are exactly the jointly sorted
bond-derived list. -/
theorem processMol_ok (t : List ℚ) (i : Nat) (skip : List Nat) (m : RawMol)
    (g : MoleculeGraph) (h : processMol t i skip (some m) = .ok (some g)) :
    g.edge_index = (sortEdges (buildEdges m.bonds)).map Prod.fst ∧
    g.edge_attr = (sortEdges (buildEdges m.bonds)).map Prod.snd := by
  unfold processMol at h
  split at h
  · exact absurd h (by simp)
  · rename_i m' hm
    injection hm with hm
    subst hm
    split at h
    · exact absurd h (by simp)
    · split at h
      · split at h <;> exact absurd h (by simp)
      · injection h with h
        injection h with h
        subst h
        exact ⟨rfl, rfl⟩

theorem mem_buildEdges_swap (bs : List RawBond) (p : (Nat × Nat) × List Bool)
    (hp : p ∈ buildEdges bs) : ((p.1.2, p.1.1), p.2) ∈ buildEdges bs := by
  induction bs with
  | nil => simp [buildEdges] at hp
  | cons b bs ih =>
      simp only [buildEdges, List.mem_cons] at hp ⊢
      rcases hp with rfl | rfl | hp
      · exact Or.inr (Or.inl rfl)
      · exact Or.inl rfl
      · exact Or.inr (Or.inr (ih hp))

theorem cumCounts_length (c : Nat) (l : List Nat) :
    (cumCounts c l).length = l.length + 1 := by
  induction l generalizing c with
  | nil => simp [cumCounts]
  | cons n ns ih => simp [cumCounts, ih]

theorem cumCounts_head (c : Nat) (l : List Nat) :
    cumCounts c l = c :: (cumCounts c l).tail := by
  cases l <;> simp [cumCounts]

theorem collateGo_ptr (items : List MoleculeGraph) (i cum : Nat) :
    (collateGo items i cum).ptr = (cumCounts cum (items.map fun g => g.x.length)).tail := by
  induction items generalizing i cum with
  | nil => simp [collateGo, cumCounts]
  | cons item rest ih =>
      simp only [collateGo, List.map_cons, cumCounts, List.tail_cons, ih]
      exact (cumCounts_head _ _).symm

theorem collateGo_edge_bound (items : List MoleculeGraph) (i cum : Nat)
    (hw : ∀ g ∈ items, ∀ p ∈ g.edge_index, p.1 < g.x.length ∧ p.2 < g.x.length) :
    ∀ p ∈ (collateGo items i cum).edge_index,
      p.1 < cum + (items.map fun g => g.x.length).sum ∧
      p.2 < cum + (items.map fun g => g.x.length).sum := by
  induction items generalizing i cum with
  | nil => simp [collateGo]
  | cons item rest ih =>
      intro p hp
      simp only [collateGo, List.mem_append, List.mem_map] at hp
      rcases hp with ⟨q, hq, rfl⟩ | hp
      · have hb := hw item (by simp) q hq
        simp only [List.map_cons, List.sum_cons]
        omega
      · have hb := ih (i + 1) (cum + item.x.length)
          (fun g hg => hw g (by simp [hg])) p hp
        simp only [List.map_cons, List.sum_cons]
        omega

theorem map_one_eq_replicate (l : List ℚ) :
    l.map (fun _ => (1 : ℚ)) = List.replicate l.length 1 := by
  induction l with
  | nil => simp
  | cons a l ih => simp [ih, List.replicate_succ]

theorem le_maxEdgeEntry (l : List (Nat × Nat)) (p : Nat × Nat) (hp : p ∈ l) :
    p.1 ≤ maxEdgeEntry l ∧ p.2 ≤ maxEdgeEntry l := by
  induction l with
  | nil => simp at hp
  | cons q l ih =>
      rcases List.mem_cons.1 hp with rfl | hp
      · simp only [maxEdgeEntry, List.foldr_cons]
        omega
      · have := ih hp
        simp only [maxEdgeEntry, List.foldr_cons] at this ⊢
        omega

theorem count_set_add (l : List Nat) (n : Nat) (b x : Nat) (h : n < l.length) :
    (l.set n b).count x + (if l.getD n 0 = x then 1 else 0) =
      l.count x + (if b = x then 1 else 0) := by
  induction l generalizing n with
  | nil => simp at h
  | cons a as ih =>
      cases n with
      | zero =>
          simp only [List.set_cons_zero, List.count_cons, List.getD_cons_zero, beq_iff_eq]
          split_ifs <;> omega
      | succ n =>
          have h' : n < as.length := by simpa using h
          have hih := ih n h'
          simp only [List.set_cons_succ, List.count_cons, List.getD_cons_succ, beq_iff_eq]
          by_cases h1 : a = x <;> by_cases h2 : as.getD n 0 = x <;> by_cases h3 : b = x <;>
            simp only [h1, h2, h3, if_true, if_false] at hih ⊢ <;> omega

theorem listSwap_perm (l : List Nat) (i j : Nat) (hi : i < l.length) (hj : j < l.length) :
    (listSwap l i j).Perm l := by
  rw [List.perm_iff_count]
  intro x
  have h1 := count_set_add l i (l.getD j 0) x hi
  have h2 := count_set_add (l.set i (l.getD j 0)) j (l.getD i 0) x (by simpa using hj)
  have h3 : (l.set i (l.getD j 0)).getD j 0 = l.getD j 0 := by
    by_cases hij : i = j
    · subst hij
      rw [List.getD_eq_getElem _ _ (by simpa using hi), List.getElem_set, if_pos rfl]
    · rw [List.getD_eq_getElem _ _ (by simpa using hj), List.getElem_set, if_neg hij]
      exact (List.getD_eq_getElem _ _ hj).symm
  rw [h3] at h2
  simp only [listSwap]
  obtain ⟨A, hAeq⟩ : ∃ A, (if l.getD j 0 = x then 1 else 0) = A := ⟨_, rfl⟩
  obtain ⟨B, hBeq⟩ : ∃ B, (if l.getD i 0 = x then 1 else 0) = B := ⟨_, rfl⟩
  rw [hAeq, hBeq] at h1
  rw [hAeq, hBeq] at h2
  omega

theorem fisherYates_perm (rand : Nat → Nat) :
    ∀ (i : Nat) (l : List Nat), i < l.length → (fisherYates rand i l).Perm l := by
  intro i
  induction i with
  | zero => intro l _; simp [fisherYates]
  | succ i ih =>
      intro l hl
      have hj : rand (i + 1) % (i + 2) < l.length :=
        lt_of_lt_of_le (Nat.mod_lt _ (by omega)) (by omega)
      have hswap := listSwap_perm l (i + 1) (rand (i + 1) % (i + 2)) hl hj
      have hlen : (listSwap l (i + 1) (rand (i + 1) % (i + 2))).length = l.length := by
        simp [listSwap]
      simp only [fisherYates]
      exact (ih _ (by omega)).trans hswap

theorem pyInt_intCast (n : ℤ) : pyInt ((n : ℚ)) = n := by
  simp [pyInt]

theorem nNodePad_eq (m n : Nat) (k : ℤ) (h : (4 * (m : ℚ)) / 5 - n + 1 = (k : ℚ)) :
    nNodePad m n = k := by
  rw [nNodePad, h, pyInt_intCast]

theorem nEdgePad_eq (m n : Nat) (k : ℤ) (h : (4 * (m : ℚ)) / 5 - n + 1 = (k : ℚ)) :
    nEdgePad m n = k := by
  rw [nEdgePad, h, pyInt_intCast]

theorem npPermutation_perm (rand : Nat → Nat) (total : Nat) :
    (npPermutation rand total).Perm (List.range total) := by
  cases total with
  | zero => simp [npPermutation, fisherYates]
  | succ n =>
      have hn : n < (List.range (n + 1)).length := by simp
      simpa [npPermutation] using fisherYates_perm rand n (List.range (n + 1)) hn

/-! ## Claim theorems -/

/-- C7: for every 19-column raw label row, the normaliser outputs the row with
the first three source columns moved to the end (entry `i < 16` comes from
source column `3 + i`, entries `16 ≤ i < 19` from source columns `0..2`), each
multiplied by the fixed per-column conversion factor, and every factor is
`1`, the Hartree-to-eV factor, or the kcal/mol-to-eV factor. -/
theorem targetNormalizer_reorder_scale (row : List ℚ) (hl : row.length = 19) :
    (normalizeTargetsRow row).length = 19 ∧
    (∀ i, i < 16 →
      (normalizeTargetsRow row).getD i 0 = row.getD (3 + i) 0 * conversionFactors.getD i 0) ∧
    (∀ i, 16 ≤ i → i < 19 →
      (normalizeTargetsRow row).getD i 0 = row.getD (i - 16) 0 * conversionFactors.getD i 0) ∧
    (∀ i, i < 19 → conversionFactors.getD i 0 = 1 ∨ conversionFactors.getD i 0 = HAR2EV ∨
      conversionFactors.getD i 0 = KCALMOL2EV) := by
  have hcf : conversionFactors.length = 19 := rfl
  have hre : (rearrangeRow row).length = 19 := by
    simp [rearrangeRow, hl]
  have hlen : (normalizeTargetsRow row).length = 19 := by
    simp [normalizeTargetsRow, hre, hcf]
  refine ⟨hlen, ?_, ?_, ?_⟩
  · intro i hi
    have h1 : i < (normalizeTargetsRow row).length := by omega
    have h2 : 3 + i < row.length := by omega
    have h3 : i < conversionFactors.length := by omega
    rw [List.getD_eq_getElem _ _ h1, List.getD_eq_getElem _ _ h2, List.getD_eq_getElem _ _ h3]
    simp only [normalizeTargetsRow]
    rw [List.getElem_zipWith]
    congr 1
    simp only [rearrangeRow]
    have hd : i < (row.drop 3).length := by simp [hl]; omega
    rw [List.getElem_append_left hd, List.getElem_drop]
  · intro i h16 hi
    have h1 : i < (normalizeTargetsRow row).length := by omega
    have h2 : i - 16 < row.length := by omega
    have h3 : i < conversionFactors.length := by omega
    rw [List.getD_eq_getElem _ _ h1, List.getD_eq_getElem _ _ h2, List.getD_eq_getElem _ _ h3]
    simp only [normalizeTargetsRow]
    rw [List.getElem_zipWith]
    congr 1
    simp only [rearrangeRow]
    have hd : (row.drop 3).length ≤ i := by simp [hl]; omega
    rw [List.getElem_append_right hd]
    have : i - (row.drop 3).length = i - 16 := by simp [hl]
    simp only [this]
    rw [List.getElem_take]
  · intro i hi
    interval_cases i <;>
      first
        | exact Or.inl rfl
        | exact Or.inr (Or.inl rfl)
        | exact Or.inr (Or.inr rfl)

theorem targetNormalizer_reorder_scale_witness :
    (normalizeTargetsRow rowEx).length = 19 ∧
    (normalizeTargetsRow rowEx).getD 2 0 = rowEx.getD 5 0 * conversionFactors.getD 2 0 :=
  ⟨(targetNormalizer_reorder_scale rowEx rfl).1,
   (targetNormalizer_reorder_scale rowEx rfl).2.1 2 (by decide)⟩

/-- C9: an atom whose atomic number is outside `{1, 6, 7, 8, 9}` makes the
parse of a supplied, non-excluded record fail with an explicit error (the
`KeyError` of the `atom_types` lookup), never a skip or a graph; an
unparsable record (`None`) or an excluded stream position is skipped
(`.ok none`) without error. -/
theorem parser_vocab_fatal :
    (∀ (t : List ℚ) (i : Nat) (skip : List Nat) (m : RawMol),
        i ∉ skip → (∃ a ∈ m.atoms, atomTypes a.atomicNum = none) →
        ∃ z, atomTypes z = none ∧ (∃ a ∈ m.atoms, a.atomicNum = z) ∧
          processMol t i skip (some m) = .error (.keyError z)) ∧
    (∀ (t : List ℚ) (i : Nat) (skip : List Nat), processMol t i skip none = .ok none) ∧
    (∀ (t : List ℚ) (i : Nat) (skip : List Nat) (m : RawMol),
        i ∈ skip → processMol t i skip (some m) = .ok none) := by
  refine ⟨?_, fun t i skip => rfl, fun t i skip m hs => by simp [processMol, hs]⟩
  intro t i skip m hns hex
  have hb : buildX m.atoms = none := (buildX_eq_none_iff _).2 hex
  have hfind : (m.atoms.find? fun a => (atomTypes a.atomicNum).isNone).isSome := by
    rw [List.find?_isSome]
    obtain ⟨a, ha, hz⟩ := hex
    exact ⟨a, ha, by simp [hz]⟩
  obtain ⟨a, hfa⟩ := Option.isSome_iff_exists.1 hfind
  refine ⟨a.atomicNum, ?_, ⟨a, List.mem_of_find?_eq_some hfa, rfl⟩, ?_⟩
  · have := List.find?_some hfa
    simpa using this
  · simp [processMol, hns, hb, hfa]

theorem parser_vocab_fatal_witness :
    processMol rowEx 0 [] none = .ok none ∧
    (∃ z, atomTypes z = none ∧ (∃ a ∈ molBad.atoms, a.atomicNum = z) ∧
      processMol rowEx 0 [] (some molBad) = .error (.keyError z)) :=
  ⟨parser_vocab_fatal.2.1 rowEx 0 [],
   parser_vocab_fatal.1 rowEx 0 [] molBad (by simp)
     ⟨⟨3, (1, 0, 0)⟩, by simp [molBad], by simp [atomTypes]⟩⟩

/-- C3: every parsed graph's edge list is sorted lexicographically by
(destination, source), and the edge-feature rows are carried through the same
permutation: the zipped (edge, feature-row) list is a permutation of the
bond-derived list, so each feature row stays with its edge.  In particular the
example edge list `[(0,1), (1,0), (1,2), (2,1)]` of `molEx` sorts to
`[(1,0), (0,1), (2,1), (1,2)]`. -/
theorem parser_edge_sorting :
    (∀ (t : List ℚ) (i : Nat) (skip : List Nat) (m : RawMol) (g : MoleculeGraph),
        processMol t i skip (some m) = .ok (some g) →
        List.Pairwise (fun e f : Nat × Nat => e.2 < f.2 ∨ (e.2 = f.2 ∧ e.1 ≤ f.1))
          g.edge_index ∧
        (g.edge_index.zip g.edge_attr).Perm (buildEdges m.bonds)) ∧
    (processMol rowEx 0 [] (some molEx) = .ok (some gEx) ∧
      (buildEdges molEx.bonds).map Prod.fst = [(0, 1), (1, 0), (1, 2), (2, 1)] ∧
      gEx.edge_index = [(1, 0), (0, 1), (2, 1), (1, 2)]) := by
  refine ⟨?_, rfl, rfl, rfl⟩
  intro t i skip m g h
  obtain ⟨hE, hA⟩ := processMol_ok t i skip m g h
  constructor
  · rw [hE]
    exact List.Pairwise.map _ (fun p q hpq => hpq) (sortEdges_sorted (buildEdges m.bonds))
  · rw [hE, hA, zip_map_fst_snd]
    exact sortEdges_perm _

theorem parser_edge_sorting_witness :
    List.Pairwise (fun e f : Nat × Nat => e.2 < f.2 ∨ (e.2 = f.2 ∧ e.1 ≤ f.1))
      gEx.edge_index ∧
    (gEx.edge_index.zip gEx.edge_attr).Perm (buildEdges molEx.bonds) :=
  parser_edge_sorting.1 rowEx 0 [] molEx gEx rfl

/-- C4: in every parsed graph, for every entry `(u, v)` of `edges` with its
feature row, the reversed pair `(v, u)` also occurs with an identical feature
row. -/
theorem parser_edge_symmetry (t : List ℚ) (i : Nat) (skip : List Nat) (m : RawMol)
    (g : MoleculeGraph) (h : processMol t i skip (some m) = .ok (some g)) :
    ∀ p ∈ g.edge_index.zip g.edge_attr,
      ((p.1.2, p.1.1), p.2) ∈ g.edge_index.zip g.edge_attr := by
  obtain ⟨hE, hA⟩ := processMol_ok t i skip m g h
  rw [hE, hA, zip_map_fst_snd]
  intro p hp
  have h1 : p ∈ buildEdges m.bonds := (sortEdges_perm _).subset hp
  have h2 := mem_buildEdges_swap m.bonds p h1
  exact ((sortEdges_perm (buildEdges m.bonds)).mem_iff).2 h2

theorem parser_edge_symmetry_witness :
    ((1, 0), [true, false, false, false]) ∈ gEx.edge_index.zip gEx.edge_attr :=
  parser_edge_symmetry rowEx 0 [] molEx gEx rfl
    ((0, 1), [true, false, false, false]) (by decide)

/-- C5: for a non-empty batch of molecules whose edges reference their own
atoms, the collated `ptr` is the cumulative-sum vector
`[0, n0, n0+n1, ..., sum]` with exactly `B + 1` entries, and every atom id in
the collated `edge_index` lies below the total atom count. -/
theorem collate_boundaries (batch : List MoleculeGraph) (_hne : batch ≠ [])
    (hw : ∀ g ∈ batch, ∀ p ∈ g.edge_index, p.1 < g.x.length ∧ p.2 < g.x.length) :
    (collateFn batch).ptr = cumCounts 0 (batch.map fun g => g.x.length) ∧
    (collateFn batch).ptr.length = batch.length + 1 ∧
    ∀ p ∈ (collateFn batch).edge_index,
      p.1 < (batch.map fun g => g.x.length).sum ∧
      p.2 < (batch.map fun g => g.x.length).sum := by
  have hptr : (collateFn batch).ptr = cumCounts 0 (batch.map fun g => g.x.length) := by
    show 0 :: (collateGo batch 0 0).ptr = _
    rw [collateGo_ptr]
    exact (cumCounts_head 0 _).symm
  refine ⟨hptr, ?_, ?_⟩
  · rw [hptr, cumCounts_length, List.length_map]
  · intro p hp
    have hb := collateGo_edge_bound batch 0 0 hw p hp
    simpa using hb

theorem collate_boundaries_witness :
    (collateFn [gA, gB]).ptr = cumCounts 0 ([gA, gB].map fun g => g.x.length) ∧
    (collateFn [gA, gB]).ptr.length = [gA, gB].length + 1 :=
  ⟨(collate_boundaries [gA, gB] (by simp) (by decide)).1,
   (collate_boundaries [gA, gB] (by simp) (by decide)).2.1⟩

/-- C8: for every batch padded within capacity, the transform appends exactly
one zero entry to the flattened target stack, and `padding_mask` is a one for
every real target entry followed by exactly one zero, at the final position. -/
theorem padder_loss_mask (mN mE : Nat) (b : BatchedGraph)
    (_hn : 0 ≤ nNodePad mN b.x.length) (_he : 0 ≤ nEdgePad mE b.edge_index.length) :
    (qm9Transform mN mE b).y = b.y.flatten ++ [0] ∧
    (qm9Transform mN mE b).padding_mask = List.replicate b.y.flatten.length 1 ++ [0] ∧
    (qm9Transform mN mE b).padding_mask.count 0 = 1 ∧
    (qm9Transform mN mE b).padding_mask.getLast? = some 0 := by
  have hy : (qm9Transform mN mE b).y = b.y.flatten ++ [0] := rfl
  have hm : (qm9Transform mN mE b).padding_mask =
      List.replicate b.y.flatten.length 1 ++ [0] := by
    show b.y.flatten.map (fun _ => (1 : ℚ)) ++ [0] = _
    rw [map_one_eq_replicate]
  refine ⟨hy, hm, ?_, ?_⟩
  · rw [hm, List.count_append, List.count_replicate]
    norm_num
  · rw [hm]
    exact List.getLast?_concat _

theorem padder_loss_mask_witness :
    (qm9Transform 10 10 bgEx).padding_mask.count 0 = 1 ∧
    (qm9Transform 10 10 bgEx).padding_mask.getLast? = some 0 := by
  have hn : 0 ≤ nNodePad 10 bgEx.x.length := by
    rw [show bgEx.x.length = 5 from rfl, nNodePad_eq 10 5 4 (by norm_num)]
    decide
  have he : 0 ≤ nEdgePad 10 bgEx.edge_index.length := by
    rw [show bgEx.edge_index.length = 6 from rfl, nEdgePad_eq 10 6 3 (by norm_num)]
    decide
  exact ⟨(padder_loss_mask 10 10 bgEx hn he).2.2.1,
         (padder_loss_mask 10 10 bgEx hn he).2.2.2⟩

/-- C2 as stated is false: the padding value is `edge_index.max() + 1`, one
past the largest atom id OCCURRING IN AN EDGE, not one past the largest real
atom id.  `bgIso` has 3 real atoms (ids 0, 1, 2) but edges only between atoms
0 and 1, and is within capacity for `max_batch_nodes = max_batch_edges = 10`;
its padding edge entries are `(2, 2)`, not `(3, 3)`, and `2` is a real atom
id — a padding edge aliases real atom 2.  The final conjunct refutes the
claim's "strictly greater than every real atom id" at this input. -/
theorem padder_sentinel_cex :
    bgIso.x.length = 3 ∧ bgIso.edge_index.length = 2 ∧
    0 ≤ nNodePad 10 bgIso.x.length ∧ 0 ≤ nEdgePad 10 bgIso.edge_index.length ∧
    (qm9Transform 10 10 bgIso).edge_index.getD 2 (0, 0) = (2, 2) ∧
    ¬ (∀ k, k < (qm9Transform 10 10 bgIso).edge_index.length →
          bgIso.edge_index.length ≤ k →
          ∀ u, u < bgIso.x.length →
            u < ((qm9Transform 10 10 bgIso).edge_index.getD k (0, 0)).1) := by
  have hnp : nNodePad 10 bgIso.x.length = 6 := by
    rw [show bgIso.x.length = 3 from rfl]
    exact nNodePad_eq 10 3 6 (by norm_num)
  have hep : nEdgePad 10 bgIso.edge_index.length = 7 := by
    rw [show bgIso.edge_index.length = 2 from rfl]
    exact nEdgePad_eq 10 2 7 (by norm_num)
  have hidx : (qm9Transform 10 10 bgIso).edge_index = padHigh bgIso.edge_index 7 (2, 2) := by
    show padHigh bgIso.edge_index (nEdgePad 10 bgIso.edge_index.length)
        (maxEdgeEntry bgIso.edge_index + 1, maxEdgeEntry bgIso.edge_index + 1) = _
    rw [hep]
    decide
  refine ⟨rfl, rfl, by rw [hnp]; decide, by rw [hep]; decide, by rw [hidx]; decide, ?_⟩
  intro hall
  rw [hidx] at hall
  have := hall 2 (by decide) (by decide) 2 (by decide)
  exact absurd this (by decide)

/-- C2, amended: within capacity, every padding entry of the edge-id array
equals `maxEdgeEntry + 1`, one past the largest atom id occurring in the real
edge array, and that value is strictly greater than every atom id occurring
in a real edge (it need not exceed atom ids that occur in no edge). -/
theorem padder_sentinel_amended (mN mE : Nat) (b : BatchedGraph)
    (_hne : b.edge_index ≠ []) (he : 0 ≤ nEdgePad mE b.edge_index.length) :
    (qm9Transform mN mE b).edge_index =
      b.edge_index ++ List.replicate (nEdgePad mE b.edge_index.length).toNat
        (maxEdgeEntry b.edge_index + 1, maxEdgeEntry b.edge_index + 1) ∧
    ∀ p ∈ b.edge_index,
      p.1 < maxEdgeEntry b.edge_index + 1 ∧ p.2 < maxEdgeEntry b.edge_index + 1 := by
  constructor
  · show padHigh b.edge_index (nEdgePad mE b.edge_index.length) _ = _
    rw [padHigh, if_pos he]
  · intro p hp
    have := le_maxEdgeEntry b.edge_index p hp
    omega

theorem padder_sentinel_amended_witness :
    (qm9Transform 10 10 bgEx).edge_index =
      bgEx.edge_index ++ List.replicate (nEdgePad 10 bgEx.edge_index.length).toNat
        (maxEdgeEntry bgEx.edge_index + 1, maxEdgeEntry bgEx.edge_index + 1) := by
  have he : 0 ≤ nEdgePad 10 bgEx.edge_index.length := by
    rw [show bgEx.edge_index.length = 6 from rfl, nEdgePad_eq 10 6 3 (by norm_num)]
    decide
  exact (padder_sentinel_amended 10 10 bgEx (by decide) he).1

/-- C1: `bgOver` has 10 real atoms, strictly more than the reserved size
`int(0.8 * 10) + 1 = 9` for `max_batch_nodes = 10`, yet the transform raises
no error: the computed node pad is `-1` and `jnp.pad`'s negative constant
padding silently CROPS the node arrays from 10 rows to 9 (while
`graph_index` keeps all 10 entries, since `-1 * [v]` is empty) — a silently
truncated output, contradicting the claim's required loud failure. -/
theorem padder_overflow_truncates :
    (pyInt ((4 * 10 : ℚ) / 5) + 1 < (bgOver.x.length : Int)) ∧
    nNodePad 10 bgOver.x.length = -1 ∧
    bgOver.pos.length = 10 ∧
    (qm9Transform 10 100 bgOver).pos.length = 9 ∧
    (qm9Transform 10 100 bgOver).x.length = 9 ∧
    (qm9Transform 10 100 bgOver).graph_index.length = 10 := by
  have hN : nNodePad 10 bgOver.x.length = -1 := by
    rw [show bgOver.x.length = 10 from rfl]
    exact nNodePad_eq 10 10 (-1) (by norm_num)
  have h8 : pyInt ((4 * 10 : ℚ) / 5) = 8 := by
    rw [show ((4 * 10 : ℚ) / 5) = ((8 : ℤ) : ℚ) by norm_num, pyInt_intCast]
  refine ⟨?_, hN, by decide, ?_, ?_, ?_⟩
  · rw [h8]
    decide
  · show (padHigh bgOver.pos (nNodePad 10 bgOver.x.length) (0, 0, 0)).length = 9
    rw [hN]
    decide
  · show (padHigh bgOver.x (nNodePad 10 bgOver.x.length)
        (List.replicate (bgOver.x.headD []).length false)).length = 9
    rw [hN]
    decide
  · show (bgOver.batch ++
        pyRepl (nNodePad 10 bgOver.x.length) (bgOver.batch.getLastD 0 + 1)).length = 10
    rw [hN]
    decide

/-- C6: for every seeded word stream (in particular `seededRand seed`, the
model of numpy's seed-42 stream) and subset sizes summing to the total, the
three index blocks taken from the seeded permutation in train/val/test order
concatenate to a permutation of `range total`: they are pairwise disjoint,
their union is exactly `{0, ..., total-1}`, they have the declared sizes, and
the result of a repeated invocation with the same stream and sizes is
identical (the split is a pure function of seed and sizes). -/
theorem split_partition (rand : Nat → Nat) (total Ttr Tval Tte : Nat)
    (hsum : Ttr + Tval + Tte = total) :
    ((applySplitIdx rand total Ttr Tval).1 ++ (applySplitIdx rand total Ttr Tval).2.1 ++
        (applySplitIdx rand total Ttr Tval).2.2).Perm (List.range total) ∧
    (applySplitIdx rand total Ttr Tval).1.Disjoint (applySplitIdx rand total Ttr Tval).2.1 ∧
    (applySplitIdx rand total Ttr Tval).1.Disjoint (applySplitIdx rand total Ttr Tval).2.2 ∧
    (applySplitIdx rand total Ttr Tval).2.1.Disjoint (applySplitIdx rand total Ttr Tval).2.2 ∧
    (∀ x, (x ∈ (applySplitIdx rand total Ttr Tval).1 ∨
           x ∈ (applySplitIdx rand total Ttr Tval).2.1 ∨
           x ∈ (applySplitIdx rand total Ttr Tval).2.2) ↔ x < total) ∧
    (applySplitIdx rand total Ttr Tval).1.length = Ttr ∧
    (applySplitIdx rand total Ttr Tval).2.1.length = Tval ∧
    (applySplitIdx rand total Ttr Tval).2.2.length = Tte ∧
    applySplitIdx rand total Ttr Tval = applySplitIdx rand total Ttr Tval := by
  have hperm := npPermutation_perm rand total
  have hlen : (npPermutation rand total).length = total :=
    hperm.length_eq.trans (List.length_range total)
  have h1 : (applySplitIdx rand total Ttr Tval).1 = (npPermutation rand total).take Ttr := rfl
  have h2 : (applySplitIdx rand total Ttr Tval).2.1 =
      ((npPermutation rand total).drop Ttr).take Tval := rfl
  have h3 : (applySplitIdx rand total Ttr Tval).2.2 =
      (npPermutation rand total).drop (Ttr + Tval) := rfl
  have hdd : ((npPermutation rand total).drop Ttr).drop Tval =
      (npPermutation rand total).drop (Ttr + Tval) := List.drop_drop Tval Ttr _
  have hall : (applySplitIdx rand total Ttr Tval).1 ++ (applySplitIdx rand total Ttr Tval).2.1 ++
      (applySplitIdx rand total Ttr Tval).2.2 = npPermutation rand total := by
    rw [h1, h2, h3, List.append_assoc, ← hdd, List.take_append_drop, List.take_append_drop]
  have hP : ((applySplitIdx rand total Ttr Tval).1 ++ (applySplitIdx rand total Ttr Tval).2.1 ++
      (applySplitIdx rand total Ttr Tval).2.2).Perm (List.range total) := by
    rw [hall]; exact hperm
  have hnd := (hP.nodup_iff).2 (List.nodup_range total)
  rw [List.nodup_append, List.nodup_append, List.disjoint_append_left] at hnd
  refine ⟨hP, hnd.1.2.2, hnd.2.2.1, hnd.2.2.2, ?_, ?_, ?_, ?_, rfl⟩
  · intro x
    rw [← List.mem_range (n := total), ← hP.mem_iff]
    simp [or_assoc]
  · rw [h1, List.length_take, hlen]
    omega
  · rw [h2, List.length_take, List.length_drop, hlen]
    omega
  · rw [h3, List.length_drop, hlen]
    omega

theorem split_partition_witness :
    (applySplitIdx (seededRand 42) 5 2 2).1.length = 2 ∧
    (applySplitIdx (seededRand 42) 5 2 2).2.1.length = 2 ∧
    (applySplitIdx (seededRand 42) 5 2 2).2.2.length = 1 :=
  ⟨(split_partition (seededRand 42) 5 2 2 1 (by decide)).2.2.2.2.2.1,
   (split_partition (seededRand 42) 5 2 2 1 (by decide)).2.2.2.2.2.2.1,
   (split_partition (seededRand 42) 5 2 2 1 (by decide)).2.2.2.2.2.2.2.1⟩

/-- C10: with a selected target index, the first `__getitem__(idx)` replaces
the stored record's target vector in place by the one-element slice at that
index (the stored list is updated at position `idx`), a second call on the
resulting state returns the same record and changes nothing further, and all
fields other than the target are unchanged. -/
theorem getitem_projection (s : DatasetState) (ti idx : Nat) (item : MoleculeGraph)
    (hti : s.targetIndex = some ti) (hit : s.data[idx]? = some item)
    (hlen : 1 < item.y.length) (hlt : ti < item.y.length) :
    (getItem s idx =
      some ({ item with y := [item.y.getD ti 0] },
            { s with data := s.data.set idx { item with y := [item.y.getD ti 0] } })) ∧
    (∀ r s2, getItem s idx = some (r, s2) → getItem s2 idx = some (r, s2)) ∧
    (∀ r s2, getItem s idx = some (r, s2) →
       r.pos = item.pos ∧ r.x = item.x ∧ r.edge_index = item.edge_index ∧
       r.edge_attr = item.edge_attr ∧ r.name = item.name ∧ r.smiles = item.smiles ∧
       r.idx = item.idx ∧ r.y = [item.y.getD ti 0]) := by
  have hslice : (item.y.drop ti).take 1 = [item.y.getD ti 0] := by
    rw [List.drop_eq_getElem_cons hlt, List.getD_eq_getElem _ _ hlt]
    rfl
  have hfirst : getItem s idx =
      some ({ item with y := [item.y.getD ti 0] },
            { s with data := s.data.set idx { item with y := [item.y.getD ti 0] } }) := by
    simp only [getItem, hit, hti, if_pos hlen, hslice]
  obtain ⟨hidx, -⟩ := List.getElem?_eq_some.1 hit
  refine ⟨hfirst, ?_, ?_⟩
  · intro r s2 h2
    rw [hfirst] at h2
    simp only [Option.some.injEq, Prod.mk.injEq] at h2
    obtain ⟨hr, hs⟩ := h2
    subst hr
    subst hs
    have hB : (s.data.set idx { item with y := [item.y[ti]?.getD 0] })[idx]? =
        some { item with y := [item.y[ti]?.getD 0] } :=
      List.getElem?_set_self (by simpa using hidx)
    simp [getItem, hB, hti]
  · intro r s2 h2
    rw [hfirst] at h2
    simp only [Option.some.injEq, Prod.mk.injEq] at h2
    obtain ⟨hr, -⟩ := h2
    subst hr
    exact ⟨rfl, rfl, rfl, rfl, rfl, rfl, rfl, rfl⟩

theorem getitem_projection_witness :
    getItem dsEx 0 =
      some ({ gC with y := [gC.y.getD 1 0] },
            { dsEx with data := dsEx.data.set 0 { gC with y := [gC.y.getD 1 0] } }) :=
  (getitem_projection dsEx 1 0 gC rfl rfl (by decide) (by decide)).1

end QM9
